import Mathlib

/-!
Verification of the 1-D periodic advection RK3 solver and its
tangent-linear / adjoint companions (`src/solvers-jax/advection-rk3-jax.py`).

State vectors of length `N = n+1` are embedded as functions `Fin (n+1) → K`
over a field `K`; the claims about real arithmetic are stated at `K := ℝ`.
`jnp` array arithmetic is elementwise, modelled by the `Pi` instances.
The module `rk3` (providing `RK3`, `RK3_tlm`, `RK3_adm`) is not part of the
provided sources; those three functions are modelled from the spec, as
marked in their doc comments.
-/

namespace AdvectionRK3

variable {K : Type} [Field K] {n : ℕ}

/-- Embedding of `jnp.roll u s`: circular shift, `(jnp.roll u s)[i] = u[(i - s) mod N]`. -/
def jnp_roll (u : Fin (n+1) → K) (s : ℤ) : Fin (n+1) → K :=
  fun i => u (i - (s : Fin (n+1)))

/-- Embedding of `create_advection_opeartor dx n` (source lines 9-17): the returned closure
computes `(jnp.roll u (-1) - jnp.roll u 1) / dx2` with `dx2 = dx * 2`.
The argument `np` (the grid size `n` of the source) is unused, as in the
source. -/
def create_advection_opeartor (dx : K) (np : ℕ) :
    (Fin (n+1) → K) → (Fin (n+1) → K) :=
  fun u =>
    let dx2 := dx * 2
    fun i => (jnp_roll u (-1) i - jnp_roll u 1 i) / dx2

/-- The right-hand-side closure `f u = - v * A u` built identically inside
`solver_rk3`, `solver_rk3_tlm` and `solver_rk3_adm` (source lines 22-24,
32-34, 42-44), with `A = create_advection_opeartor dx num_points`. -/
def advection_rhs (v dx : K) (np : ℕ) (u : Fin (n+1) → K) : Fin (n+1) → K :=
  fun i => -v * create_advection_opeartor dx np u i

/-- Standard dot product `np.dot` on vectors of length `n+1`. -/
def dotp (x y : Fin (n+1) → K) : K := ∑ i, x i * y i

/- ### The functions of the missing module `rk3` (modelled from the spec) -/

/-- The stage expression `x + dt·f(x)` that recurs in the spec's forward
recurrence (spec sections 4.3-4.5). -/
def rk3_stage (f : (Fin (n+1) → K) → Fin (n+1) → K) (dt : K)
    (x : Fin (n+1) → K) : Fin (n+1) → K :=
  x + dt • f x

/-- The tangent-linear stage expression `dx + dt·df(x, dx)`
(spec section 4.4). -/
def tlm_stage (df : (Fin (n+1) → K) → (Fin (n+1) → K) → Fin (n+1) → K)
    (dt : K) (x dx : Fin (n+1) → K) : Fin (n+1) → K :=
  dx + dt • df x dx

/-- The adjoint stage expression `Dy + dt·f^T(x, Dy)`, the transpose of
`rk3_stage` at base state `x` (spec section 4.5). -/
def adm_stage (ftr : (Fin (n+1) → K) → (Fin (n+1) → K) → Fin (n+1) → K)
    (dt : K) (x Dy : Fin (n+1) → K) : Fin (n+1) → K :=
  Dy + dt • ftr x Dy

/-- Modelled from the spec: the missing `rk3.RK3` applies the SSP-RK3 step
`k1 = u + dt f u; k2 = (3/4) u + (1/4)(k1 + dt f k1);
u' = (1/3) u + (2/3)(k2 + dt f k2)` (spec section 4.3). -/
def RK3_step (f : (Fin (n+1) → K) → Fin (n+1) → K) (dt : K)
    (u : Fin (n+1) → K) : Fin (n+1) → K :=
  let k1 := rk3_stage f dt u
  let k2 := (3/4 : K) • u + (1/4 : K) • rk3_stage f dt k1
  (1/3 : K) • u + (2/3 : K) • rk3_stage f dt k2

/-- Modelled from the spec: the missing `rk3.RK3` advances the state by
`num_steps` applications of the SSP-RK3 step, each step depending only on
the previous state, and returns the final state (spec section 4.3). -/
def RK3 (f : (Fin (n+1) → K) → Fin (n+1) → K) (u : Fin (n+1) → K)
    (dt : K) (num_steps : ℕ) : Fin (n+1) → K :=
  (RK3_step f dt)^[num_steps] u

/-- Modelled from the spec: one step of the missing `rk3.RK3_tlm`, which
propagates `(u, du)` by applying `f` on the base trajectory and the
directional derivative `df` on the perturbation at every stage
(spec section 4.4). -/
def RK3_tlm_step (f : (Fin (n+1) → K) → Fin (n+1) → K)
    (df : (Fin (n+1) → K) → (Fin (n+1) → K) → Fin (n+1) → K) (dt : K)
    (p : (Fin (n+1) → K) × (Fin (n+1) → K)) :
    (Fin (n+1) → K) × (Fin (n+1) → K) :=
  let k1 := rk3_stage f dt p.1
  let dk1 := tlm_stage df dt p.1 p.2
  let k2 := (3/4 : K) • p.1 + (1/4 : K) • rk3_stage f dt k1
  let dk2 := (3/4 : K) • p.2 + (1/4 : K) • tlm_stage df dt k1 dk1
  ((1/3 : K) • p.1 + (2/3 : K) • rk3_stage f dt k2,
   (1/3 : K) • p.2 + (2/3 : K) • tlm_stage df dt k2 dk2)

/-- Modelled from the spec: the missing `rk3.RK3_tlm` iterates the
tangent-linear step `num_steps` times from `(u, du)` and returns the final
state/perturbation pair (spec section 4.4). -/
def RK3_tlm (f : (Fin (n+1) → K) → Fin (n+1) → K)
    (df : (Fin (n+1) → K) → (Fin (n+1) → K) → Fin (n+1) → K)
    (u du : Fin (n+1) → K) (dt : K) (num_steps : ℕ) :
    (Fin (n+1) → K) × (Fin (n+1) → K) :=
  (RK3_tlm_step f df dt)^[num_steps] (u, du)

/-- Modelled from the spec: one backward step of the missing `rk3.RK3_adm`.
Given the base state `u` at the start of the corresponding forward step and
the incoming cotangent `D` of the step's output, it recomputes the stage
states `k1`, `k2` and distributes `D` through the reversed stage structure
using the vector-Jacobian product `ftr` (spec section 4.5). -/
def RK3_adm_step (f : (Fin (n+1) → K) → Fin (n+1) → K)
    (ftr : (Fin (n+1) → K) → (Fin (n+1) → K) → Fin (n+1) → K) (dt : K)
    (u D : Fin (n+1) → K) : Fin (n+1) → K :=
  let k1 := rk3_stage f dt u
  let k2 := (3/4 : K) • u + (1/4 : K) • rk3_stage f dt k1
  let Dk2 := (2/3 : K) • D
  let Dk2' := adm_stage ftr dt k2 Dk2
  let Dk1 := (1/4 : K) • Dk2'
  let Dk1' := adm_stage ftr dt k1 Dk1
  (1/3 : K) • D + (3/4 : K) • Dk2' + adm_stage ftr dt u Dk1'

/-- Modelled from the spec: the missing `rk3.RK3_adm` unwinds `num_steps`
forward steps in reverse order: the cotangent entering base state `u` is the
backward step at `u` applied to the cotangent produced by unwinding the
remaining steps along the forward trajectory starting at `RK3_step f dt u`
(spec section 4.5). -/
def RK3_adm (f : (Fin (n+1) → K) → Fin (n+1) → K)
    (ftr : (Fin (n+1) → K) → (Fin (n+1) → K) → Fin (n+1) → K)
    (u D : Fin (n+1) → K) (dt : K) : ℕ → Fin (n+1) → K
  | 0 => D
  | (m+1) => RK3_adm_step f ftr dt u (RK3_adm f ftr (RK3_step f dt u) D dt m)

/-- Modelled from the spec: the directional derivative of the right-hand
side, `df(u, du) = -v · A(du)` (spec section 4.2), as produced by the
forward-mode machinery for the linear `f`. -/
def advection_rhs_jvp (v dx : K) (np : ℕ) (u du : Fin (n+1) → K) :
    Fin (n+1) → K :=
  advection_rhs v dx np du

/-- Modelled from the spec: the vector-Jacobian product of the right-hand
side, `f^T(u, Dv) = -v · A^T(u, Dv)` (spec section 4.2), where `A^T` is the
transpose of the periodic centered-difference stencil exposed through the
reverse-mode machinery: `A^T Dv [i] = (Dv[i-1] - Dv[i+1]) / (2 dx)`. -/
def advection_rhs_vjp (v dx : K) (np : ℕ) (u Dv : Fin (n+1) → K) :
    Fin (n+1) → K :=
  fun i => -v * ((Dv (i - 1) - Dv (i + 1)) / (dx * 2))

/- ### The three solvers (source lines 19-47) -/

/-- Embedding of `solver_rk3` (source lines 19-26). -/
def solver_rk3 (u_initial : Fin (n+1) → K) (v dx : K) (num_points : ℕ)
    (dt : K) (num_steps : ℕ) : Fin (n+1) → K :=
  RK3 (advection_rhs v dx num_points) u_initial dt num_steps

/-- Embedding of `solver_rk3_tlm` (source lines 29-37): returns the perturbation
component of the tangent-linear integration. -/
def solver_rk3_tlm (u_initial du_initial : Fin (n+1) → K) (v dx : K)
    (num_points : ℕ) (dt : K) (num_steps : ℕ) : Fin (n+1) → K :=
  (RK3_tlm (advection_rhs v dx num_points) (advection_rhs_jvp v dx num_points)
    u_initial du_initial dt num_steps).2

/-- Embedding of `solver_rk3_adm` (source lines 39-47): returns the cotangent at the
initial state. -/
def solver_rk3_adm (u_initial Du : Fin (n+1) → K) (v dx : K)
    (num_points : ℕ) (dt : K) (num_steps : ℕ) : Fin (n+1) → K :=
  RK3_adm (advection_rhs v dx num_points) (advection_rhs_vjp v dx num_points)
    u_initial Du dt num_steps

/- ### The verification harness (source lines 90-140)

The harness functions are parameterized, as in the source, over the solver
closures `m`, `TLM`, `ADM`; the seeded pseudo-random draws `u0`, `du`, `Dv`
are modelled as explicit vector arguments.  A Python float comparison
`e < tol` is embedded as the proposition `e < tol`; the pair returned by
each check is its (flag, magnitude) return value. -/

/-- Embedding of `np.linalg.norm`: the Euclidean norm. -/
noncomputable def npNorm (x : Fin (n+1) → ℝ) : ℝ :=
  Real.sqrt (∑ i, x i * x i)

/-- Embedding of `np.min` on a list of reals (the source applies it to a nonempty list;
the empty case is given a junk value). -/
def npMin : List ℝ → ℝ
  | [] => 0
  | x :: xs => xs.foldl min x

/-- Embedding of `testTLMLinearity` (source lines 90-98). -/
noncomputable def testTLMLinearity
    (TLM : (Fin (n+1) → ℝ) → (Fin (n+1) → ℝ) → Fin (n+1) → ℝ)
    (tol : ℝ) (u0 du : Fin (n+1) → ℝ) : Prop × ℝ :=
  let dv := TLM u0 du
  let dv2 := TLM u0 ((2 : ℝ) • du)
  let absolute_error := npNorm (dv2 - (2 : ℝ) • dv)
  (absolute_error < tol, absolute_error)

/-- The body of the `for i in range(15)` loop of `testTLMApprox`
(source lines 113-119): state is (absolute error list, relative error list,
current scale). -/
noncomputable def tlmApproxStep (m : (Fin (n+1) → ℝ) → Fin (n+1) → ℝ)
    (u0 du v0 dv : Fin (n+1) → ℝ)
    (st : List ℝ × List ℝ × ℝ) (i : ℕ) : List ℝ × List ℝ × ℝ :=
  let scale := st.2.2
  let v1 := m (u0 + scale • du)
  let absolute_error := npNorm (scale • dv - (v1 - v0))
  let relative_error := absolute_error / npNorm (v1 - v0)
  (st.1 ++ [absolute_error], st.2.1 ++ [relative_error], scale / 10)

/-- Embedding of `testTLMApprox` (source lines 100-125). -/
noncomputable def testTLMApprox
    (m : (Fin (n+1) → ℝ) → Fin (n+1) → ℝ)
    (TLM : (Fin (n+1) → ℝ) → (Fin (n+1) → ℝ) → Fin (n+1) → ℝ)
    (tol : ℝ) (u0 du : Fin (n+1) → ℝ) : Prop × ℝ :=
  let v0 := m u0
  let dv := TLM u0 du
  let st := (List.range 15).foldl (tlmApproxStep m u0 du v0 dv) ([], [], 1)
  let min_relative_error := npMin st.2.1
  (min_relative_error < tol, min_relative_error)

/-- Embedding of `testADMApprox` (source lines 127-140). -/
noncomputable def testADMApprox
    (TLM ADM : (Fin (n+1) → ℝ) → (Fin (n+1) → ℝ) → Fin (n+1) → ℝ)
    (tol : ℝ) (u0 du Dv : Fin (n+1) → ℝ) : Prop × ℝ :=
  let dv := TLM u0 du
  let Du := ADM u0 Dv
  let absolute_error := |dotp dv Dv - dotp du Du|
  (absolute_error < tol, absolute_error)

/- ### Runtime-shape embedding (lists)

`jnp` arrays carry their length at runtime, not in their type.  To settle
the dimension-mismatch claims the operator and forward solver are also
embedded on `List K`, where a state of any length can be passed together
with an arbitrary `num_points`.  Elementwise binary arithmetic on `jnp`
arrays of equal length is `List.zipWith`; the sources only ever combine
arrays produced from the same input, which all have the input's length. -/

/-- Embedding of `jnp.roll` on runtime-length vectors:
`(jnp.roll u s)[i] = u[(i - s) mod len u]`, i.e. a left rotation by
`(-s) mod len u`. -/
def jnp_roll_list (u : List K) (s : ℤ) : List K :=
  u.rotate ((-s % (u.length : ℤ)).toNat)

/-- Embedding of `create_advection_opeartor` (source lines 9-17) on runtime-length
vectors; as in the source, the grid-size argument `np` is unused and the
input length is never checked. -/
def create_advection_opeartor_list (dx : K) (np : ℕ) (u : List K) : List K :=
  let dx2 := dx * 2
  (List.zipWith (fun a b => a - b) (jnp_roll_list u (-1)) (jnp_roll_list u 1)).map
    (fun a => a / dx2)

/-- The right-hand-side closure `f u = - v * A u` on runtime-length
vectors. -/
def advection_rhs_list (v dx : K) (np : ℕ) (u : List K) : List K :=
  (create_advection_opeartor_list dx np u).map (fun a => -v * a)

/-- Elementwise `jnp` array addition. -/
def addList (a b : List K) : List K := List.zipWith (fun x y => x + y) a b

/-- Scalar-times-array on `jnp` runtime-length vectors. -/
def smulList (c : K) (a : List K) : List K := a.map (fun x => c * x)

/-- Modelled from the spec: the missing `rk3.RK3` step on runtime-length
vectors (spec section 4.3), the same SSP-RK3 recurrence as `RK3_step`. -/
def RK3_step_list (f : List K → List K) (dt : K) (u : List K) : List K :=
  let k1 := addList u (smulList dt (f u))
  let k2 := addList (smulList (3/4 : K) u)
    (smulList (1/4 : K) (addList k1 (smulList dt (f k1))))
  addList (smulList (1/3 : K) u)
    (smulList (2/3 : K) (addList k2 (smulList dt (f k2))))

/-- Modelled from the spec: the missing `rk3.RK3` on runtime-length
vectors applies the step `num_steps` times (spec section 4.3). -/
def RK3_list (f : List K → List K) (u : List K) (dt : K) (num_steps : ℕ) :
    List K :=
  (RK3_step_list f dt)^[num_steps] u

/-- Embedding of `solver_rk3` (source lines 19-26) on runtime-length vectors. -/
def solver_rk3_list (u_initial : List K) (v dx : K) (num_points : ℕ)
    (dt : K) (num_steps : ℕ) : List K :=
  RK3_list (advection_rhs_list v dx num_points) u_initial dt num_steps

/- ### Helper lemmas: roll and the centered-difference stencil -/
theorem jnp_roll_neg_one (u : Fin (n+1) → K) (i : Fin (n+1)) :
    jnp_roll u (-1) i = u (i + 1) := by
  simp [jnp_roll, sub_neg_eq_add]

theorem jnp_roll_one (u : Fin (n+1) → K) (i : Fin (n+1)) :
    jnp_roll u 1 i = u (i - 1) := by
  simp [jnp_roll]

theorem advection_apply (dx : K) (np : ℕ) (u : Fin (n+1) → K) (i : Fin (n+1)) :
    create_advection_opeartor dx np u i = (u (i + 1) - u (i - 1)) / (dx * 2) := by
  simp [create_advection_opeartor, jnp_roll_neg_one, jnp_roll_one]

/-- Reindexing a cyclic sum: `∑ i, g (i + 1) = ∑ i, g i`. -/
theorem sum_shift (g : Fin (n+1) → K) : (∑ i, g (i + 1)) = ∑ i, g i :=
  Equiv.sum_comp (Equiv.addRight (1 : Fin (n+1))) g

/-- The key summation-by-parts identity for the periodic stencil:
`∑ i, x (i+1) * y i = ∑ i, x i * y (i-1)`. -/
theorem sum_mul_shift (x y : Fin (n+1) → K) :
    (∑ i, x (i + 1) * y i) = ∑ i, x i * y (i - 1) := by
  have h := sum_shift (n := n) (K := K) (fun j => x j * y (j - 1))
  simpa using h

/- ### Dot-product algebra -/
theorem dotp_add_left (x y z : Fin (n+1) → K) :
    dotp (x + y) z = dotp x z + dotp y z := by
  simp [dotp, add_mul, Finset.sum_add_distrib]

theorem dotp_add_right (x y z : Fin (n+1) → K) :
    dotp x (y + z) = dotp x y + dotp x z := by
  simp [dotp, mul_add, Finset.sum_add_distrib]

theorem dotp_smul_left (c : K) (x y : Fin (n+1) → K) :
    dotp (c • x) y = c * dotp x y := by
  simp [dotp, Finset.mul_sum, mul_assoc]

theorem dotp_smul_right (c : K) (x y : Fin (n+1) → K) :
    dotp x (c • y) = c * dotp x y := by
  simp [dotp, Finset.mul_sum]
  exact Finset.sum_congr rfl fun i _ => by ring

/-- Summation by parts for the periodic centered-difference operator:
`⟨A x, y⟩ = ⟨x, Aᵀ y⟩` where `Aᵀ y [i] = (y (i-1) - y (i+1)) / (2 dx)`. -/
theorem dotp_advection_left (dx : K) (np : ℕ) (x y : Fin (n+1) → K) :
    dotp (create_advection_opeartor dx np x) y
      = dotp x (fun i => (y (i - 1) - y (i + 1)) / (dx * 2)) := by
  simp only [dotp, advection_apply]
  have h1 : (∑ i, (x (i + 1) - x (i - 1)) / (dx * 2) * y i)
      = (∑ i, x (i + 1) * y i / (dx * 2)) - ∑ i, x (i - 1) * y i / (dx * 2) := by
    rw [← Finset.sum_sub_distrib]
    exact Finset.sum_congr rfl fun i _ => by ring
  have h2 : (∑ i, x i * ((y (i - 1) - y (i + 1)) / (dx * 2)))
      = (∑ i, x i * y (i - 1) / (dx * 2)) - ∑ i, x i * y (i + 1) / (dx * 2) := by
    rw [← Finset.sum_sub_distrib]
    exact Finset.sum_congr rfl fun i _ => by ring
  rw [h1, h2]
  have h3 : (∑ i, x (i + 1) * y i / (dx * 2)) = ∑ i, x i * y (i - 1) / (dx * 2) := by
    have h := sum_shift (n := n) (K := K) (fun j => x j * y (j - 1) / (dx * 2))
    simpa using h
  have h4 : (∑ i, x (i - 1) * y i / (dx * 2)) = ∑ i, x i * y (i + 1) / (dx * 2) := by
    have h := sum_shift (n := n) (K := K) (fun j => x (j - 1) * y j / (dx * 2))
    simpa using h.symm
  rw [h3, h4]

/- ### Linearity of the right-hand side and its transposes -/
theorem advection_rhs_add (v dx : K) (np : ℕ) (x y : Fin (n+1) → K) :
    advection_rhs v dx np (x + y)
      = advection_rhs v dx np x + advection_rhs v dx np y := by
  funext i
  simp only [advection_rhs, advection_apply, Pi.add_apply]
  ring

theorem advection_rhs_smul (v dx : K) (np : ℕ) (c : K) (x : Fin (n+1) → K) :
    advection_rhs v dx np (c • x) = c • advection_rhs v dx np x := by
  funext i
  simp only [advection_rhs, advection_apply, Pi.smul_apply, smul_eq_mul]
  ring

theorem advection_rhs_vjp_smul (v dx : K) (np : ℕ) (z : Fin (n+1) → K)
    (c : K) (y : Fin (n+1) → K) :
    advection_rhs_vjp v dx np z (c • y) = c • advection_rhs_vjp v dx np z y := by
  funext i
  simp only [advection_rhs_vjp, Pi.smul_apply, smul_eq_mul]
  ring

/-- The modelled vector-Jacobian product is the transpose of the right-hand
side under the dot product, for any base states. -/
theorem dotp_rhs_pair (v dx : K) (np : ℕ) (z x y : Fin (n+1) → K) :
    dotp (advection_rhs v dx np x) y = dotp x (advection_rhs_vjp v dx np z y) := by
  have h1 : advection_rhs v dx np x = (-v) • create_advection_opeartor dx np x := by
    funext i
    simp only [advection_rhs, Pi.smul_apply, smul_eq_mul]
  have h2 : advection_rhs_vjp v dx np z y
      = (-v) • fun i => (y (i - 1) - y (i + 1)) / (dx * 2) := by
    funext i
    simp only [advection_rhs_vjp, Pi.smul_apply, smul_eq_mul]
  rw [h1, h2, dotp_smul_left, dotp_smul_right, dotp_advection_left]

/-- Stage-level pairing: `⟨x + dt·f(x), y⟩ = ⟨x, y + dt·f^T(y)⟩`. -/
theorem dotp_stage_pair (v dx : K) (np : ℕ) (dt : K) (z : Fin (n+1) → K)
    (x y : Fin (n+1) → K) :
    dotp (rk3_stage (advection_rhs v dx np) dt x) y
      = dotp x (adm_stage (advection_rhs_vjp v dx np) dt z y) := by
  simp only [rk3_stage, adm_stage]
  rw [dotp_add_left, dotp_add_right, dotp_smul_left, dotp_smul_right,
    dotp_rhs_pair v dx np z]

/-- The adjoint stage is homogeneous in the cotangent. -/
theorem adm_stage_smul (v dx : K) (np : ℕ) (dt : K) (z : Fin (n+1) → K)
    (c : K) (y : Fin (n+1) → K) :
    adm_stage (advection_rhs_vjp v dx np) dt z (c • y)
      = c • adm_stage (advection_rhs_vjp v dx np) dt z y := by
  simp only [adm_stage, advection_rhs_vjp_smul]
  module

/-- The tangent-linear stage for this right-hand side is the forward stage
applied to the perturbation (the base state is irrelevant, `f` is linear). -/
theorem tlm_stage_eq (v dx : K) (np : ℕ) (dt : K) (x y : Fin (n+1) → K) :
    tlm_stage (advection_rhs_jvp v dx np) dt x y
      = rk3_stage (advection_rhs v dx np) dt y := rfl

/-- The adjoint stage ignores its base-state argument for this right-hand
side (its vector-Jacobian product is state-independent). -/
theorem adm_stage_state_irrel (v dx : K) (np : ℕ) (dt : K)
    (z w y : Fin (n+1) → K) :
    adm_stage (advection_rhs_vjp v dx np) dt z y
      = adm_stage (advection_rhs_vjp v dx np) dt w y := rfl

/-- One-step adjoint pairing: the perturbation output of the tangent-linear
step pairs with a cotangent exactly as the perturbation input pairs with the
backward-step output. -/
theorem dotp_step_pair (v dx : K) (np : ℕ) (dt : K)
    (u w du D : Fin (n+1) → K) :
    dotp ((RK3_tlm_step (advection_rhs v dx np) (advection_rhs_jvp v dx np)
        dt (u, du)).2) D
      = dotp du (RK3_adm_step (advection_rhs v dx np)
          (advection_rhs_vjp v dx np) dt w D) := by
  simp only [RK3_tlm_step, RK3_adm_step, tlm_stage_eq]
  rw [dotp_add_left, dotp_smul_left, dotp_smul_left,
    dotp_stage_pair v dx np dt w, dotp_add_left, dotp_smul_left,
    dotp_smul_left, dotp_stage_pair v dx np dt w, dotp_stage_pair v dx np dt w]
  simp only [adm_stage_state_irrel v dx np dt _ w, adm_stage_smul]
  rw [dotp_add_right, dotp_add_right, dotp_smul_right, dotp_smul_right,
    dotp_smul_right]
  simp only [smul_smul, dotp_smul_right]
  ring

/-- Unfolding one tangent-linear step: the base component advances by the
forward step, the perturbation component by the tangent-linear step. -/
theorem RK3_tlm_succ (f : (Fin (n+1) → K) → Fin (n+1) → K)
    (df : (Fin (n+1) → K) → (Fin (n+1) → K) → Fin (n+1) → K)
    (u du : Fin (n+1) → K) (dt : K) (ns : ℕ) :
    RK3_tlm f df u du dt (ns+1)
      = RK3_tlm f df (RK3_step f dt u) ((RK3_tlm_step f df dt (u, du)).2)
          dt ns := rfl

theorem RK3_adm_succ (f : (Fin (n+1) → K) → Fin (n+1) → K)
    (ftr : (Fin (n+1) → K) → (Fin (n+1) → K) → Fin (n+1) → K)
    (u D : Fin (n+1) → K) (dt : K) (ns : ℕ) :
    RK3_adm f ftr u D dt (ns+1)
      = RK3_adm_step f ftr dt u (RK3_adm f ftr (RK3_step f dt u) D dt ns) :=
  rfl

/-- Multi-step adjoint pairing, by induction over the number of steps. -/
theorem dotp_iter_pair (v dx : K) (np : ℕ) (dt : K) (ns : ℕ) :
    ∀ u du D : Fin (n+1) → K,
      dotp ((RK3_tlm (advection_rhs v dx np) (advection_rhs_jvp v dx np)
          u du dt ns).2) D
        = dotp du (RK3_adm (advection_rhs v dx np)
            (advection_rhs_vjp v dx np) u D dt ns) := by
  induction ns with
  | zero => intro u du D; rfl
  | succ m ih =>
      intro u du D
      rw [RK3_tlm_succ, RK3_adm_succ,
        ih (RK3_step (advection_rhs v dx np) dt u)
          ((RK3_tlm_step (advection_rhs v dx np) (advection_rhs_jvp v dx np)
            dt (u, du)).2) D,
        dotp_step_pair v dx np dt u u]

/-- The forward stage is homogeneous (the right-hand side is linear). -/
theorem rk3_stage_smul (v dx : K) (np : ℕ) (dt c : K) (x : Fin (n+1) → K) :
    rk3_stage (advection_rhs v dx np) dt (c • x)
      = c • rk3_stage (advection_rhs v dx np) dt x := by
  simp only [rk3_stage, advection_rhs_smul]
  module

/-- One tangent-linear step is homogeneous in the perturbation. -/
theorem RK3_tlm_step_snd_smul (v dx : K) (np : ℕ) (dt c : K)
    (u du : Fin (n+1) → K) :
    (RK3_tlm_step (advection_rhs v dx np) (advection_rhs_jvp v dx np) dt
        (u, c • du)).2
      = c • (RK3_tlm_step (advection_rhs v dx np) (advection_rhs_jvp v dx np)
          dt (u, du)).2 := by
  have hcomb : ∀ (a b : K) (x y : Fin (n+1) → K),
      a • (c • x) + b • (c • y) = c • (a • x + b • y) := by
    intro a b x y
    module
  simp only [RK3_tlm_step, tlm_stage_eq, rk3_stage_smul]
  rw [hcomb, rk3_stage_smul, hcomb]

/-- Multi-step tangent-linear homogeneity, pairs tracked through the
iteration. -/
theorem RK3_tlm_smul (v dx : K) (np : ℕ) (dt c : K) (ns : ℕ) :
    ∀ u du : Fin (n+1) → K,
      RK3_tlm (advection_rhs v dx np) (advection_rhs_jvp v dx np)
          u (c • du) dt ns
        = ((RK3_tlm (advection_rhs v dx np) (advection_rhs_jvp v dx np)
              u du dt ns).1,
           c • (RK3_tlm (advection_rhs v dx np) (advection_rhs_jvp v dx np)
              u du dt ns).2) := by
  induction ns with
  | zero => intro u du; rfl
  | succ m ih =>
      intro u du
      rw [RK3_tlm_succ, RK3_tlm_step_snd_smul,
        ih (RK3_step (advection_rhs v dx np) dt u)
          ((RK3_tlm_step (advection_rhs v dx np) (advection_rhs_jvp v dx np)
            dt (u, du)).2),
        RK3_tlm_succ]

theorem dotp_neg_right (x y : Fin (n+1) → K) : dotp x (-y) = - dotp x y := by
  simp [dotp, mul_neg]

/- ### Shift equivariance machinery -/
theorem jnp_roll_add (a b : Fin (n+1) → K) (s : ℤ) :
    jnp_roll (a + b) s = jnp_roll a s + jnp_roll b s := rfl

theorem jnp_roll_smul (c : K) (a : Fin (n+1) → K) (s : ℤ) :
    jnp_roll (c • a) s = c • jnp_roll a s := rfl

theorem advection_roll_commute (dx : K) (np : ℕ) (u : Fin (n+1) → K) :
    create_advection_opeartor dx np (jnp_roll u 1)
      = jnp_roll (create_advection_opeartor dx np u) 1 := by
  funext i
  simp [advection_apply, jnp_roll_one, sub_add_eq_add_sub]

theorem advection_rhs_roll_commute (v dx : K) (np : ℕ) (u : Fin (n+1) → K) :
    advection_rhs v dx np (jnp_roll u 1)
      = jnp_roll (advection_rhs v dx np u) 1 := by
  funext i
  simp only [advection_rhs, advection_roll_commute, jnp_roll_one]

theorem RK3_step_roll_commute (v dx : K) (np : ℕ) (dt : K)
    (u : Fin (n+1) → K) :
    RK3_step (advection_rhs v dx np) dt (jnp_roll u 1)
      = jnp_roll (RK3_step (advection_rhs v dx np) dt u) 1 := by
  simp only [RK3_step, rk3_stage, ← jnp_roll_smul, ← jnp_roll_add,
    advection_rhs_roll_commute]

/-- Closed form of the `testTLMApprox` loop: after `j` iterations the scale
is `1/10^j` and the two error lists hold the absolute and relative errors at
scales `1, 1/10, …, 1/10^(j-1)`. -/
theorem tlmApprox_loop {n : ℕ} (m : (Fin (n+1) → ℝ) → Fin (n+1) → ℝ)
    (u0 du v0 dv : Fin (n+1) → ℝ) (j : ℕ) :
    (List.range j).foldl (tlmApproxStep m u0 du v0 dv) ([], [], 1)
      = ((List.range j).map (fun k =>
            npNorm ((1/10^k : ℝ) • dv - (m (u0 + (1/10^k : ℝ) • du) - v0))),
         (List.range j).map (fun k =>
            npNorm ((1/10^k : ℝ) • dv - (m (u0 + (1/10^k : ℝ) • du) - v0))
              / npNorm (m (u0 + (1/10^k : ℝ) • du) - v0)),
         (1/10^j : ℝ)) := by
  induction j with
  | zero => norm_num
  | succ j ih =>
      rw [List.range_succ, List.foldl_append, ih]
      simp only [List.foldl_cons, List.foldl_nil, tlmApproxStep,
        List.map_append, List.map_cons, List.map_nil]
      refine congrArg₂ _ rfl (congrArg₂ _ rfl ?_)
      rw [pow_succ]
      ring

/- ### Length bookkeeping for the runtime-shape embedding -/
theorem jnp_roll_list_length (u : List K) (s : ℤ) :
    (jnp_roll_list u s).length = u.length := by
  simp [jnp_roll_list]

theorem create_advection_opeartor_list_length (dx : K) (np : ℕ)
    (u : List K) :
    (create_advection_opeartor_list dx np u).length = u.length := by
  simp [create_advection_opeartor_list, jnp_roll_list_length]

theorem advection_rhs_list_length (v dx : K) (np : ℕ) (u : List K) :
    (advection_rhs_list v dx np u).length = u.length := by
  simp [advection_rhs_list, create_advection_opeartor_list_length]

theorem addList_length (a b : List K) :
    (addList a b).length = min a.length b.length := by
  simp [addList]

theorem smulList_length (c : K) (a : List K) :
    (smulList c a).length = a.length := by
  simp [smulList]

theorem RK3_step_list_length (f : List K → List K)
    (hf : ∀ u : List K, (f u).length = u.length) (dt : K) (u : List K) :
    (RK3_step_list f dt u).length = u.length := by
  simp [RK3_step_list, addList_length, smulList_length, hf]

theorem solver_rk3_list_length (u : List K) (v dx : K) (np : ℕ) (dt : K)
    (ns : ℕ) : (solver_rk3_list u v dx np dt ns).length = u.length := by
  induction ns generalizing u with
  | zero => rfl
  | succ m ih =>
      have hstep : solver_rk3_list u v dx np dt (m+1)
          = solver_rk3_list
              (RK3_step_list (advection_rhs_list v dx np) dt u) v dx np dt m :=
        rfl
      rw [hstep, ih, RK3_step_list_length _ (advection_rhs_list_length v dx np)]

/- ### Claim theorems -/

/-- Claim C1: for every base state `u0`, perturbation `du`, and cotangent
`Dv` of matching dimension, `⟨TLM(u0, du), Dv⟩ = ⟨du, ADM(u0, Dv)⟩` exactly
over the real-number embedding, where TLM is `solver_rk3_tlm` and ADM is
`solver_rk3_adm` run with the same `v`, `dx`, `num_points`, `dt`,
`num_steps`. -/
theorem adjoint_identity_tlm_adm {n : ℕ} (v dx : ℝ) (np : ℕ) (dt : ℝ)
    (ns : ℕ) (u0 du Dv : Fin (n+1) → ℝ) :
    dotp (solver_rk3_tlm u0 du v dx np dt ns) Dv
      = dotp du (solver_rk3_adm u0 Dv v dx np dt ns) :=
  dotp_iter_pair v dx np dt ns u0 du Dv

/-- Claim C2: the tangent-linear integrator is homogeneous in the
perturbation: `TLM(u0, c·du) = c·TLM(u0, du)` exactly over the real-number
embedding, with `v`, `dx`, `num_points`, `dt`, `num_steps` fixed. -/
theorem tlm_linearity {n : ℕ} (v dx : ℝ) (np : ℕ) (dt c : ℝ) (ns : ℕ)
    (u0 du : Fin (n+1) → ℝ) :
    solver_rk3_tlm u0 (c • du) v dx np dt ns
      = c • solver_rk3_tlm u0 du v dx np dt ns := by
  simp only [solver_rk3_tlm]
  rw [RK3_tlm_smul v dx np dt c ns u0 du]

/-- Claim C3: `solver_rk3 u v dx num_points dt num_steps` advances the state
by applying, `num_steps` times in sequence, the three-stage SSP-RK3
recurrence `k1 = u + dt·f(u)`, `k2 = (3/4)·u + (1/4)·(k1 + dt·f(k1))`,
`u' = (1/3)·u + (2/3)·(k2 + dt·f(k2))`, each step depending only on the
previous state, and returns the final state. -/
theorem solver_rk3_iterates_ssp_step {n : ℕ} (v dx : ℝ) (np : ℕ) (dt : ℝ)
    (ns : ℕ) (u : Fin (n+1) → ℝ) :
    solver_rk3 u v dx np dt ns
      = (fun w =>
          let k1 := w + dt • advection_rhs v dx np w
          let k2 := (3/4 : ℝ) • w
            + (1/4 : ℝ) • (k1 + dt • advection_rhs v dx np k1)
          (1/3 : ℝ) • w
            + (2/3 : ℝ) • (k2 + dt • advection_rhs v dx np k2))^[ns] u :=
  rfl

/-- Claim C4: the right-hand side used by all three integrators computes
`f(u)[i] = -v · (u[i+1] - u[i-1]) / (2·dx)` with periodic index wrap, i.e.
`f(u) = -v·A(u)` for the periodic centered-difference operator `A`. -/
theorem rhs_centered_difference {n : ℕ} (v dx : ℝ) (np : ℕ) :
    (∀ (u : Fin (n+1) → ℝ) (i : Fin (n+1)),
        advection_rhs v dx np u i = -v * ((u (i + 1) - u (i - 1)) / (2 * dx)))
    ∧ (∀ (u : Fin (n+1) → ℝ) (dt : ℝ) (ns : ℕ),
        solver_rk3 u v dx np dt ns = RK3 (advection_rhs v dx np) u dt ns)
    ∧ (∀ (u du : Fin (n+1) → ℝ) (dt : ℝ) (ns : ℕ),
        solver_rk3_tlm u du v dx np dt ns
          = (RK3_tlm (advection_rhs v dx np) (advection_rhs_jvp v dx np)
              u du dt ns).2)
    ∧ (∀ (u Du : Fin (n+1) → ℝ) (dt : ℝ) (ns : ℕ),
        solver_rk3_adm u Du v dx np dt ns
          = RK3_adm (advection_rhs v dx np) (advection_rhs_vjp v dx np)
              u Du dt ns) := by
  refine ⟨fun u i => ?_, fun _ _ _ => rfl, fun _ _ _ _ => rfl,
    fun _ _ _ _ => rfl⟩
  rw [advection_rhs, advection_apply]
  ring

/-- Claim C5: the periodic centered-difference operator is anti-symmetric
under the standard dot product: `⟨A x, y⟩ = -⟨x, A y⟩`, i.e. `Aᵀ = -A`. -/
theorem advection_antisymmetric {n : ℕ} (dx : ℝ) (np : ℕ)
    (x y : Fin (n+1) → ℝ) :
    dotp (create_advection_opeartor dx np x) y
      = - dotp x (create_advection_opeartor dx np y) := by
  rw [dotp_advection_left]
  have h : (fun i => (y (i - 1) - y (i + 1)) / (dx * 2))
      = -(create_advection_opeartor dx np y) := by
    funext i
    rw [Pi.neg_apply, advection_apply]
    ring
  rw [h, dotp_neg_right]

/-- Claim C7: circularly shifting the initial state by one grid point and
running the forward solve for one step yields exactly the circular shift of
the forward solve of the unshifted state. -/
theorem solver_rk3_shift_equivariant {n : ℕ} (v dx : ℝ) (np : ℕ) (dt : ℝ)
    (u : Fin (n+1) → ℝ) :
    solver_rk3 (jnp_roll u 1) v dx np dt 1
      = jnp_roll (solver_rk3 u v dx np dt 1) 1 := by
  have h : ∀ w : Fin (n+1) → ℝ,
      solver_rk3 w v dx np dt 1 = RK3_step (advection_rhs v dx np) dt w :=
    fun _ => rfl
  rw [h, h, RK3_step_roll_commute]

/-- Claim C6: `testTLMApprox` computes `v0 = forward(u0)` and
`dv = TLM(u0, du)`, then for exactly 15 scales `s = 1, 0.1, 0.01, …` (each
one tenth of the previous, i.e. `s = 1/10^k` for `k < 15`) computes the
absolute error `‖s·dv − (forward(u0 + s·du) − v0)‖` and the relative error
obtained by dividing by `‖forward(u0 + s·du) − v0‖`, and returns success
if and only if the minimum relative error over the 15 scales is below the
given tolerance, together with that minimum. -/
theorem testTLMApprox_characterization {n : ℕ}
    (m : (Fin (n+1) → ℝ) → Fin (n+1) → ℝ)
    (TLM : (Fin (n+1) → ℝ) → (Fin (n+1) → ℝ) → Fin (n+1) → ℝ)
    (tol : ℝ) (u0 du : Fin (n+1) → ℝ) :
    testTLMApprox m TLM tol u0 du
      = (npMin ((List.range 15).map (fun k =>
            npNorm ((1/10^k : ℝ) • TLM u0 du
                - (m (u0 + (1/10^k : ℝ) • du) - m u0))
              / npNorm (m (u0 + (1/10^k : ℝ) • du) - m u0))) < tol,
         npMin ((List.range 15).map (fun k =>
            npNorm ((1/10^k : ℝ) • TLM u0 du
                - (m (u0 + (1/10^k : ℝ) • du) - m u0))
              / npNorm (m (u0 + (1/10^k : ℝ) • du) - m u0)))) := by
  simp only [testTLMApprox, tlmApprox_loop]

/-- Claim C9: each of the three verification checks returns a pair of a
success flag and the measured error magnitude; the flag is exactly the
proposition that the magnitude is below the tolerance, and each check is a
total function — a failed numerical check yields a `(False, magnitude)`
value rather than an exception. -/
theorem harness_reports_failure_as_data {n : ℕ}
    (m : (Fin (n+1) → ℝ) → Fin (n+1) → ℝ)
    (TLM ADM : (Fin (n+1) → ℝ) → (Fin (n+1) → ℝ) → Fin (n+1) → ℝ)
    (tol : ℝ) (u0 du Dv : Fin (n+1) → ℝ) :
    (testTLMLinearity TLM tol u0 du
        = ((testTLMLinearity TLM tol u0 du).2 < tol,
           npNorm (TLM u0 ((2 : ℝ) • du) - (2 : ℝ) • TLM u0 du)))
    ∧ (testTLMApprox m TLM tol u0 du
        = ((testTLMApprox m TLM tol u0 du).2 < tol,
           (testTLMApprox m TLM tol u0 du).2))
    ∧ (testADMApprox TLM ADM tol u0 du Dv
        = ((testADMApprox TLM ADM tol u0 du Dv).2 < tol,
           |dotp (TLM u0 du) Dv - dotp du (ADM u0 Dv)|)) := by
  refine ⟨rfl, ?_, rfl⟩
  conv_lhs => rw [testTLMApprox]
  rfl

/- ### Dimension-mismatch claims -/

/-- Counterexample to claim C8 as stated: calling the forward integrator
with a state of length 3 while `num_points = 100` does not fail — the call
completes normally and returns an ordinary state of length 3. -/
theorem solver_rk3_mismatch_completes_cex :
    (solver_rk3_list (K := ℝ) [1, 0, 0] 1.2 0.01 100 0.5 1).length = 3
      ∧ (3 : ℕ) ≠ 100 :=
  ⟨solver_rk3_list_length [1, 0, 0] 1.2 0.01 100 0.5 1, by decide⟩

/-- Claim C8 (amended): no dimension validation against the grid parameters
occurs: `solver_rk3` accepts a state of any length together with any
`num_points`, never fails, and returns a state of the input's length. -/
theorem solver_rk3_accepts_any_length (u : List ℝ) (v dx : ℝ) (np : ℕ)
    (dt : ℝ) (ns : ℕ) :
    (solver_rk3_list u v dx np dt ns).length = u.length :=
  solver_rk3_list_length u v dx np dt ns

/-- Claim C10: the operator returned by `create_advection_opeartor(dx, n)`
does not depend on its second argument `n`: for every `dx`, every pair
`n1, n2`, and every input vector `u` of any length, the two returned
operators produce identical output on `u`; no length validation against
`num_points` occurs and vectors of any length are accepted (the output has
the input's length). -/
theorem create_advection_opeartor_ignores_n (dx : ℝ) (n1 n2 : ℕ)
    (u : List ℝ) :
    create_advection_opeartor_list dx n1 u
        = create_advection_opeartor_list dx n2 u
      ∧ (create_advection_opeartor_list dx n1 u).length = u.length :=
  ⟨rfl, create_advection_opeartor_list_length dx n1 u⟩
